import Mathlib

/-!
Verification of the driver characterization sweep engine
(`src/driver/tb.rs` of the ucieanalog repository).

The embedding translates the Rust source into Lean:
* `Decimal` and `f64` values become `ℚ`;
* `Complex64` samples become the computable pair `Cx`;
* panics (`assert!`, out-of-bounds indexing) become `Option.none`;
* the external Spectre simulation call becomes an oracle parameter
  `simFn : SimJob → List ℚ × List Cx` returning (frequency vector,
  complex output-voltage vector) for a job;
* OS threads are not modelled: each job's result slot is determined by
  its key, and the join loop processes handles in spawn order, so the
  aggregation is the fold `aggStep` over the job list in enumeration
  order.
-/

namespace UcieAnalog

/-- A complex sample (re, im), standing for a `Complex64` value. -/
structure Cx where
  re : ℚ
  im : ℚ
deriving DecidableEq, Repr

/-- Squared norm of a complex sample. -/
def Cx.normSq (z : Cx) : ℚ := z.re ^ 2 + z.im ^ 2

/-- The value `1.0 / z` for a complex `z`, following `num_complex`'s
division of a real by a complex number:
`re = 1 * z.re / normSq`, `im = -1 * z.im / normSq`. -/
def Cx.oneDiv (z : Cx) : Cx :=
  ⟨z.re / z.normSq, -z.im / z.normSq⟩

/-- Resistance extraction from `simulate_driver` (tb.rs lines 343-346):
`sim.vout.iter().map(|&z| 1.0 / ((1.0 / z).re)).collect()`. -/
def extract_resistance (vout : List Cx) : List ℚ :=
  vout.map (fun z => 1 / (Cx.oneDiv z).re)

/-- Rust `Vec::resize(new_len, value)`: truncate when shrinking,
pad with `value` when growing. -/
def vecResize (l : List Bool) (newLen : ℕ) (v : Bool) : List Bool :=
  if newLen ≤ l.length then l.take newLen
  else l ++ List.replicate (newLen - l.length) v

/-- `code_to_thermometer` (tb.rs lines 384-392). The `assert!(code <= bits)`
precondition and the `assert_eq!(out.len(), bits)` postcondition are
modelled as `none` on failure. -/
def code_to_thermometer (code bits : ℕ) : Option (List Bool) :=
  if code ≤ bits then
    let out := vecResize (vecResize [] code true) bits false
    if out.length = bits then some out else none
  else none

/-- The thermometer mask value: first `code` entries true, rest false. -/
def thermo_mask (code bits : ℕ) : List Bool :=
  List.replicate code true ++ List.replicate (bits - code) false

/-- Sweep variants of the Spectre `Ac` analysis configuration. -/
inductive Sweep where
  | linear : ℕ → Sweep
  | decade : ℕ → Sweep
deriving DecidableEq, Repr

/-- Spectre error-tolerance presets. -/
inductive ErrPreset where
  | liberal
  | moderate
  | conservative
deriving DecidableEq, Repr

/-- The Spectre `Ac` analysis configuration submitted by a testbench run. -/
structure Ac where
  start : ℚ
  stop : ℚ
  sweep : Sweep
  errpreset : Option ErrPreset
deriving DecidableEq, Repr

/-- The data of a `DriverAcTb` instance (tb.rs lines 37-54):
frequency bounds, DC input bias, supply voltage of the PVT corner,
and the two enable masks. -/
structure DriverAcTbParams where
  fstart : ℚ
  fstop : ℚ
  vin : ℚ
  pvtVoltage : ℚ
  pu_mask : List Bool
  pd_mask : List Bool
deriving DecidableEq, Repr

/-- The AC analysis submitted by `DriverAcTb::run` (tb.rs lines 226-241):
`Ac { start: dec!(1e3), stop: dec!(50e9), sweep: Sweep::Decade(40),
errpreset: Some(ErrPreset::Conservative) }`. The literals `1e3` and
`50e9` are hard-coded; the testbench's `fstart`/`fstop` fields are
not read. -/
def DriverAcTb.runAnalysis (_tb : DriverAcTbParams) : Ac :=
  { start := 1000
    stop := 50000000000
    sweep := Sweep.decade 40
    errpreset := some ErrPreset.conservative }

/-- The control-port counts of a driver DUT: `n_pu` pull-up control
ports (`pu_ctl`) and `n_pd` pull-down control ports (`pd_ctlb`). -/
structure DutPorts where
  n_pu : ℕ
  n_pd : ℕ
deriving DecidableEq, Repr

/-- Nodes of the assembled testbench circuit. -/
inductive Terminal where
  | vin
  | vout
  | vdd
  | vss
  | pu_ctl : ℕ → Terminal
  | pd_ctlb : ℕ → Terminal
deriving DecidableEq, Repr

/-- An AC source description: DC value, magnitude, phase. -/
structure AcSource where
  dc : ℚ
  mag : ℚ
  phase : ℚ
deriving DecidableEq, Repr

/-- Instances placed by the testbench assembler, each with its two
terminals (p, n). -/
inductive TbInstance where
  | resistor : ℚ → Terminal → Terminal → TbInstance
  | vsource_dc : ℚ → Terminal → Terminal → TbInstance
  | isource_ac : AcSource → Terminal → Terminal → TbInstance
deriving DecidableEq, Repr

/-- `DriverAcTb::schematic` (tb.rs lines 130-192), modelled as the list
of placed instances. Note line 141 sizes the `pd_ctlb` signal array by
`dut.io().pu_ctl.len()`, so both length assertions compare against the
pull-up port count; the pull-down loop then indexes the DUT's `pd_ctlb`
ports up to that count, which is out of bounds when `n_pu > n_pd`.
Failed assertions and out-of-bounds indexing are `none`. -/
def DriverAcTb.schematic (dut : DutPorts) (tb : DriverAcTbParams) :
    Option (List TbInstance) :=
  if dut.n_pu = tb.pu_mask.length ∧ dut.n_pu = tb.pd_mask.length then
    if dut.n_pu ≤ dut.n_pd then
      some
        (((List.range dut.n_pu).map fun i =>
            TbInstance.resistor 100 (Terminal.pu_ctl i)
              (if tb.pu_mask.getD i false then Terminal.vdd else Terminal.vss)) ++
          ((List.range dut.n_pu).map fun i =>
            TbInstance.resistor 100 (Terminal.pd_ctlb i)
              (if tb.pd_mask.getD i false then Terminal.vss else Terminal.vdd)) ++
          [TbInstance.vsource_dc tb.vin Terminal.vin Terminal.vss,
            TbInstance.vsource_dc tb.pvtVoltage Terminal.vdd Terminal.vss,
            TbInstance.isource_ac ⟨0, 1, 0⟩ Terminal.vss Terminal.vout])
    else none
  else none

/-- `DriverSimParams` (tb.rs lines 245-256): the PVT supply voltage,
frequency bounds, and bias sweep point count. -/
structure DriverSimParams where
  pvtVoltage : ℚ
  fstart : ℚ
  fstop : ℚ
  sweep_points : ℕ
deriving DecidableEq, Repr

/-- One simulation job of the sweep dispatcher: the swept code, the
bias index, which leg family is swept, the bias voltage, and the two
masks handed to the testbench. -/
structure SimJob where
  code : ℕ
  vin_idx : ℕ
  is_pu : Bool
  vin : ℚ
  pu_mask : List Bool
  pd_mask : List Bool
deriving DecidableEq, Repr

/-- The bias-voltage sweep vector built at tb.rs lines 300-304:
`vin[i] = pvt.voltage * i / (sweep_points - 1)`. -/
def vin_sweep (voltage : ℚ) (sweep_points : ℕ) : List ℚ :=
  (List.range sweep_points).map fun i =>
    voltage * (i : ℚ) / ((sweep_points - 1 : ℕ) : ℚ)

/-- The jobs spawned for one leg family (tb.rs lines 306-351):
`code` ranges over `1..=mask_bits`, `i` over `0..sweep_points`; the
swept family's mask is the thermometer code, the other family's mask
is all-true. -/
def jobsFor (sp n_pu n_pd : ℕ) (vinVec : List ℚ) (mask_bits : ℕ) (b : Bool) :
    List SimJob :=
  (List.range' 1 mask_bits).flatMap fun code =>
    (List.range sp).map fun i =>
      { code := code
        vin_idx := i
        is_pu := b
        vin := vinVec.getD i 0
        pu_mask := if b then thermo_mask code mask_bits else List.replicate n_pu true
        pd_mask := if b then List.replicate n_pd true else thermo_mask code mask_bits }

/-- The full job matrix in spawn order, from the iteration over
`[(n_pu, true), (n_pd, false)]` at tb.rs line 306: the pull-up family
first, then the pull-down family. -/
def driverJobs (params : DriverSimParams) (n_pu n_pd : ℕ) : List SimJob :=
  jobsFor params.sweep_points n_pu n_pd
    (vin_sweep params.pvtVoltage params.sweep_points) n_pu true ++
  jobsFor params.sweep_points n_pu n_pd
    (vin_sweep params.pvtVoltage params.sweep_points) n_pd false

/-- The testbench parameters a job is simulated with
(tb.rs lines 326-334). -/
def jobTb (params : DriverSimParams) (j : SimJob) : DriverAcTbParams :=
  { fstart := params.fstart
    fstop := params.fstop
    vin := j.vin
    pvtVoltage := params.pvtVoltage
    pu_mask := j.pu_mask
    pd_mask := j.pd_mask }

/-- `DriverAcSims` (tb.rs lines 260-277): the characterization result. -/
structure DriverAcSims where
  r_pu : List (List (List ℚ))
  r_pd : List (List (List ℚ))
  freq : List ℚ
  vin : List ℚ
  pu_codes : List ℕ
  pd_codes : List ℕ
deriving DecidableEq, Repr

/-- Rust `l[i][j] = v` on a nested `Vec`. -/
def set2 (l : List (List (List ℚ))) (i j : ℕ) (v : List ℚ) :
    List (List (List ℚ)) :=
  l.set i ((l.getD i []).set j v)

/-- One step of the join loop (tb.rs lines 363-371): overwrite the
shared frequency vector with the job's, and store the extracted
resistance curve at `[code - 1][vin_idx]` of the swept family. -/
def aggStep (simFn : SimJob → List ℚ × List Cx) (out : DriverAcSims)
    (job : SimJob) : DriverAcSims :=
  if job.is_pu then
    { out with
      freq := (simFn job).1
      r_pu := set2 out.r_pu (job.code - 1) job.vin_idx
        (extract_resistance (simFn job).2) }
  else
    { out with
      freq := (simFn job).1
      r_pd := set2 out.r_pd (job.code - 1) job.vin_idx
        (extract_resistance (simFn job).2) }

/-- `simulate_driver` (tb.rs lines 280-374), with the per-job
simulation abstracted as the oracle `simFn`. The `assert!` on
`sweep_points >= 2` is `none`; the bias vector of the result is the
sweep vector with each job's bias voltage appended in spawn order
(the `vin_swp_vec.push(vin)` at line 316 inside the job loop); the
result table starts as `n` rows of `sweep_points` empty curves and is
filled by the join loop in spawn order. -/
def simulate_driver (simFn : SimJob → List ℚ × List Cx)
    (params : DriverSimParams) (n_pu n_pd : ℕ) : Option DriverAcSims :=
  if 2 ≤ params.sweep_points then
    some
      ((driverJobs params n_pu n_pd).foldl (aggStep simFn)
        { r_pu := List.replicate n_pu (List.replicate params.sweep_points [])
          r_pd := List.replicate n_pd (List.replicate params.sweep_points [])
          freq := []
          vin := vin_sweep params.pvtVoltage params.sweep_points ++
            (driverJobs params n_pu n_pd).map SimJob.vin
          pu_codes := List.range' 1 n_pu
          pd_codes := List.range' 1 n_pd })
  else none

/-- A result table has `n` rows, each holding `sp` curves. -/
def tableShape (n sp : ℕ) (l : List (List (List ℚ))) : Prop :=
  l.length = n ∧ ∀ k, k < n → (l.getD k []).length = sp

/-! ## Concrete inputs used by counterexamples and witnesses -/

/-- Testbench parameters exhibiting the C3 divergence:
`fstart = 10^6`, `fstop = 10^9`. -/
def C3tb : DriverAcTbParams :=
  { fstart := 1000000
    fstop := 1000000000
    vin := 0
    pvtVoltage := 1
    pu_mask := []
    pd_mask := [] }

/-- A trivial simulation oracle returning empty waveforms. -/
def C4f : SimJob → List ℚ × List Cx := fun _ => ([], [])

/-- Sweep parameters with supply voltage 1 and two bias points. -/
def C4p : DriverSimParams := ⟨1, 0, 0, 2⟩

/-- Correct-length masks for a DUT with `n_pu = 2`, `n_pd = 1`. -/
def C5tb : DriverAcTbParams := ⟨0, 0, 0, 0, [true, true], [true]⟩

/-- Sweep parameters with two bias points. -/
def C5p : DriverSimParams := ⟨0, 0, 0, 2⟩

/-- Correct-length masks for a DUT with `n_pu = 2`, `n_pd = 1`,
used to refute the claimed success condition. -/
def C6tb : DriverAcTbParams := ⟨0, 0, 0, 0, [true, true], [true]⟩

/-- Masks for a DUT with one port per family: pull-up enabled,
pull-down disabled. -/
def C7tb : DriverAcTbParams := ⟨0, 0, 0, 1, [true], [false]⟩

/-- The instance list the assembler produces for `C7tb` on a DUT with
one port per family. -/
def C7insts : List TbInstance :=
  [TbInstance.resistor 100 (Terminal.pu_ctl 0) Terminal.vdd,
    TbInstance.resistor 100 (Terminal.pd_ctlb 0) Terminal.vdd,
    TbInstance.vsource_dc 0 Terminal.vin Terminal.vss,
    TbInstance.vsource_dc 1 Terminal.vdd Terminal.vss,
    TbInstance.isource_ac ⟨0, 1, 0⟩ Terminal.vss Terminal.vout]

/-- A trivial simulation oracle returning empty waveforms. -/
def C8f : SimJob → List ℚ × List Cx := fun _ => ([], [])

/-- Sweep parameters with five bias points (spec example). -/
def C8p : DriverSimParams := ⟨0, 0, 0, 5⟩

/-- A simulation oracle whose frequency vector depends on the job:
`[1]` for pull-up jobs, `[2]` for pull-down jobs. -/
def C9f : SimJob → List ℚ × List Cx :=
  fun j => (if j.is_pu then [1] else [2], [])

/-- Sweep parameters with supply voltage 1 and two bias points. -/
def C9p : DriverSimParams := ⟨1, 0, 0, 2⟩

/-! ## Helper lemmas -/

lemma vecResize_nil (n : ℕ) (v : Bool) :
    vecResize [] n v = List.replicate n v := by
  rcases Nat.eq_zero_or_pos n with h | h
  · subst h; simp [vecResize]
  · simp [vecResize, Nat.not_le.mpr h]

lemma vecResize_replicate (code bits : ℕ) (h : code ≤ bits) :
    vecResize (List.replicate code true) bits false = thermo_mask code bits := by
  unfold vecResize thermo_mask
  rcases Nat.lt_or_ge code bits with hlt | hge
  · rw [if_neg (by simp; omega)]
    simp
  · have hcb : code = bits := le_antisymm h hge
    subst hcb
    rw [if_pos (by simp)]
    simp

lemma thermo_mask_length (code bits : ℕ) (h : code ≤ bits) :
    (thermo_mask code bits).length = bits := by
  simp [thermo_mask]
  omega

lemma code_to_thermometer_eq (code bits : ℕ) (h : code ≤ bits) :
    code_to_thermometer code bits = some (thermo_mask code bits) := by
  unfold code_to_thermometer
  rw [if_pos h, vecResize_nil, vecResize_replicate code bits h,
    if_pos (thermo_mask_length code bits h)]

lemma thermo_mask_getD (code bits i : ℕ) (h : code ≤ bits) (hi : i < bits) :
    (thermo_mask code bits).getD i false = decide (i < code) := by
  unfold thermo_mask
  rw [List.getD_eq_getElem?_getD, List.getElem?_append]
  rcases Nat.lt_or_ge i code with hic | hic
  · rw [if_pos (by simpa using hic)]
    simp [List.getElem?_replicate_of_lt hic, hic]
  · rw [if_neg (by simpa using Nat.not_lt.mpr hic)]
    have hlt : i - (List.replicate code true).length < bits - code := by
      simp
      omega
    rw [List.getElem?_replicate_of_lt hlt]
    simp [Nat.not_lt.mpr hic]

/-! ## Claims C1, C2, C3, C10 -/

/-- Claim C1: for every job, the resistance curve is obtained from the
complex output-voltage samples by mapping each sample `z` to
`1 / Re(1/z)` — the reciprocal of the real part of the admittance,
which for `z = a + bi` is `1 / (a / (a² + b²))` — producing exactly one
resistance entry per sample, in order; this is not the map `z ↦ Re z`. -/
theorem C1_resistance_extraction (vout : List Cx) (i : ℕ)
    (h : i < vout.length) :
    (extract_resistance vout).length = vout.length ∧
    (extract_resistance vout).getD i 0 =
      1 / ((vout.getD i ⟨0, 0⟩).re /
        ((vout.getD i ⟨0, 0⟩).re ^ 2 + (vout.getD i ⟨0, 0⟩).im ^ 2)) ∧
    ¬∀ z : Cx, 1 / (Cx.oneDiv z).re = z.re := by
  refine ⟨by simp [extract_resistance], ?_, ?_⟩
  · simp only [extract_resistance, List.getD_eq_getElem?_getD,
      List.getElem?_map, List.getElem?_eq_getElem h]
    simp [Cx.oneDiv, Cx.normSq]
  · intro hall
    have h1 := hall ⟨1, 1⟩
    norm_num [Cx.oneDiv, Cx.normSq] at h1

/-- Witness for C1 at the single sample `z = 1 + i`:
`Re(1/z) = 1/2`, so the extracted resistance is `2`. -/
theorem C1_resistance_extraction_witness :
    (extract_resistance [Cx.mk 1 1]).length = 1 ∧
    (extract_resistance [Cx.mk 1 1]).getD 0 0 =
      1 / ((Cx.mk 1 1).re /
        ((Cx.mk 1 1).re ^ 2 + (Cx.mk 1 1).im ^ 2)) ∧
    ¬∀ z : Cx, 1 / (Cx.oneDiv z).re = z.re := by
  simpa using C1_resistance_extraction [Cx.mk 1 1] 0 (by decide)

/-- Claim C2: for `code ≤ bits`, `code_to_thermometer code bits` returns
a mask of length `bits` whose first `code` entries are true and whose
remaining entries are false. -/
theorem C2_thermometer (code bits : ℕ) (h : code ≤ bits) :
    ∃ mask, code_to_thermometer code bits = some mask ∧
      mask.length = bits ∧
      ∀ i, i < bits → mask.getD i false = decide (i < code) :=
  ⟨thermo_mask code bits, code_to_thermometer_eq code bits h,
    thermo_mask_length code bits h,
    fun i hi => thermo_mask_getD code bits i h hi⟩

/-- Witness for C2, including the three spec examples
`(0,4) ↦ FFFF`, `(2,4) ↦ TTFF`, `(4,4) ↦ TTTT`. -/
theorem C2_thermometer_witness :
    (∃ mask, code_to_thermometer 2 4 = some mask ∧ mask.length = 4 ∧
      ∀ i, i < 4 → mask.getD i false = decide (i < 2)) ∧
    code_to_thermometer 0 4 = some [false, false, false, false] ∧
    code_to_thermometer 2 4 = some [true, true, false, false] ∧
    code_to_thermometer 4 4 = some [true, true, true, true] :=
  ⟨C2_thermometer 2 4 (by decide), by decide, by decide, by decide⟩

/-- Claim C3 (divergence): the AC analysis submitted by
`DriverAcTb::run` is a 40-points-per-decade logarithmic sweep with the
conservative error preset, but its bounds are the hard-coded literals
`1e3` and `50e9`, not the testbench's configured `fstart`/`fstop`:
at `fstart = 10^6`, `fstop = 10^9` the submitted bounds differ from
the configured ones. -/
theorem C3_fixed_sweep_divergence :
    (DriverAcTb.runAnalysis C3tb).sweep = Sweep.decade 40 ∧
    (DriverAcTb.runAnalysis C3tb).errpreset = some ErrPreset.conservative ∧
    (DriverAcTb.runAnalysis C3tb).start = 1000 ∧
    (DriverAcTb.runAnalysis C3tb).stop = 50000000000 ∧
    (DriverAcTb.runAnalysis C3tb).start ≠ C3tb.fstart ∧
    (DriverAcTb.runAnalysis C3tb).stop ≠ C3tb.fstop :=
  ⟨rfl, rfl, rfl, rfl, by norm_num [DriverAcTb.runAnalysis, C3tb],
    by norm_num [DriverAcTb.runAnalysis, C3tb]⟩

/-- Claim C10: `code_to_thermometer code bits` with `code > bits` fails
the precondition assertion and returns no mask. -/
theorem C10_code_gt_bits (code bits : ℕ) (h : bits < code) :
    code_to_thermometer code bits = none := by
  unfold code_to_thermometer
  rw [if_neg (by omega)]

/-- Witness for C10 at `code = 5`, `bits = 4`. -/
theorem C10_code_gt_bits_witness : code_to_thermometer 5 4 = none :=
  C10_code_gt_bits 5 4 (by decide)

/-! ## Schematic assembly lemmas -/

lemma schematic_none_of_pd_len {dut : DutPorts} {tb : DriverAcTbParams}
    (h : tb.pd_mask.length ≠ dut.n_pu) :
    DriverAcTb.schematic dut tb = none := by
  unfold DriverAcTb.schematic
  rw [if_neg (fun hc => h hc.2.symm)]

lemma length_jobsFor (sp n_pu n_pd : ℕ) (vinVec : List ℚ) (mask_bits : ℕ)
    (b : Bool) :
    (jobsFor sp n_pu n_pd vinVec mask_bits b).length = mask_bits * sp := by
  unfold jobsFor
  rw [List.length_flatMap]
  have hmap : ((List.range' 1 mask_bits).map
      (List.length ∘ fun code => (List.range sp).map fun i =>
        ({ code := code, vin_idx := i, is_pu := b, vin := vinVec.getD i 0
           pu_mask := if b then thermo_mask code mask_bits
             else List.replicate n_pu true
           pd_mask := if b then List.replicate n_pd true
             else thermo_mask code mask_bits } : SimJob))) =
      (List.range' 1 mask_bits).map fun _ => sp := by
    apply List.map_congr_left
    intro a _
    simp
  rw [hmap, List.map_const', List.sum_const_nat, List.length_range']

lemma mem_jobsFor_lengths {sp n_pu n_pd : ℕ} {vinVec : List ℚ}
    {mask_bits : ℕ} {b : Bool} {j : SimJob}
    (hj : j ∈ jobsFor sp n_pu n_pd vinVec mask_bits b)
    (hbits : mask_bits = (if b then n_pu else n_pd)) :
    j.pu_mask.length = n_pu ∧ j.pd_mask.length = n_pd := by
  unfold jobsFor at hj
  rw [List.mem_flatMap] at hj
  obtain ⟨code, hcode, hj⟩ := hj
  rw [List.mem_map] at hj
  obtain ⟨i, _, rfl⟩ := hj
  rw [List.mem_range'] at hcode
  obtain ⟨k, hk, rfl⟩ := hcode
  have hle : 1 + 1 * k ≤ mask_bits := by omega
  cases b with
  | true =>
    simp only [if_pos rfl] at hbits ⊢
    subst hbits
    exact ⟨thermo_mask_length _ _ hle, List.length_replicate _ _⟩
  | false =>
    simp only [Bool.false_eq_true, if_neg] at hbits ⊢
    subst hbits
    exact ⟨List.length_replicate _ _, thermo_mask_length _ _ hle⟩

lemma mem_driverJobs_lengths {params : DriverSimParams} {n_pu n_pd : ℕ}
    {j : SimJob} (hj : j ∈ driverJobs params n_pu n_pd) :
    j.pu_mask.length = n_pu ∧ j.pd_mask.length = n_pd := by
  unfold driverJobs at hj
  rw [List.mem_append] at hj
  rcases hj with hj | hj
  · exact mem_jobsFor_lengths hj (by simp)
  · exact mem_jobsFor_lengths hj (by simp)

/-! ## Aggregation lemmas -/

lemma length_set2 (l : List (List (List ℚ))) (i j : ℕ) (v : List ℚ) :
    (set2 l i j v).length = l.length := by
  simp [set2]

lemma tableShape_set2 {n sp : ℕ} {l : List (List (List ℚ))}
    (h : tableShape n sp l) (i j : ℕ) (v : List ℚ) :
    tableShape n sp (set2 l i j v) := by
  obtain ⟨hlen, hrow⟩ := h
  refine ⟨by rw [length_set2, hlen], ?_⟩
  intro k hk
  unfold set2
  rw [List.getD_eq_getElem?_getD]
  by_cases hik : i = k
  · subst hik
    rw [List.getElem?_set_self (by rw [hlen]; exact hk)]
    simp only [Option.getD_some]
    rw [List.length_set]
    exact hrow i hk
  · rw [List.getElem?_set_ne hik, ← List.getD_eq_getElem?_getD]
    exact hrow k hk

lemma tableShape_replicate (n sp : ℕ) :
    tableShape n sp (List.replicate n (List.replicate sp ([] : List ℚ))) := by
  refine ⟨List.length_replicate _ _, ?_⟩
  intro k hk
  rw [List.getD_eq_getElem?_getD, List.getElem?_replicate_of_lt hk]
  simp

lemma aggStep_vin (simFn : SimJob → List ℚ × List Cx) (out : DriverAcSims)
    (j : SimJob) : (aggStep simFn out j).vin = out.vin := by
  unfold aggStep
  split <;> rfl

lemma foldl_aggStep_vin (simFn : SimJob → List ℚ × List Cx)
    (jobs : List SimJob) : ∀ out : DriverAcSims,
    (jobs.foldl (aggStep simFn) out).vin = out.vin := by
  induction jobs with
  | nil => intro out; rfl
  | cons a l ih =>
    intro out
    rw [List.foldl_cons, ih, aggStep_vin]

lemma aggStep_freq (simFn : SimJob → List ℚ × List Cx) (out : DriverAcSims)
    (j : SimJob) : (aggStep simFn out j).freq = (simFn j).1 := by
  unfold aggStep
  split <;> rfl

lemma foldl_aggStep_freq (simFn : SimJob → List ℚ × List Cx) :
    ∀ (jobs : List SimJob) (out : DriverAcSims) (j : SimJob),
      jobs.getLast? = some j →
      (jobs.foldl (aggStep simFn) out).freq = (simFn j).1 := by
  intro jobs
  induction jobs with
  | nil => intro out j h; simp at h
  | cons a l ih =>
    intro out j h
    cases l with
    | nil =>
      rw [List.getLast?_singleton] at h
      injection h with h
      subst h
      rw [List.foldl_cons, List.foldl_nil, aggStep_freq]
    | cons b m =>
      rw [List.getLast?_cons_cons] at h
      rw [List.foldl_cons]
      exact ih _ j h

lemma foldl_aggStep_shapes (simFn : SimJob → List ℚ × List Cx)
    {npu npd sp : ℕ} (jobs : List SimJob) : ∀ out : DriverAcSims,
    tableShape npu sp out.r_pu → tableShape npd sp out.r_pd →
    tableShape npu sp ((jobs.foldl (aggStep simFn) out).r_pu) ∧
      tableShape npd sp ((jobs.foldl (aggStep simFn) out).r_pd) := by
  induction jobs with
  | nil => intro out h1 h2; exact ⟨h1, h2⟩
  | cons a l ih =>
    intro out h1 h2
    rw [List.foldl_cons]
    apply ih
    · unfold aggStep
      split
      · exact tableShape_set2 h1 _ _ _
      · exact h1
    · unfold aggStep
      split
      · exact h2
      · exact tableShape_set2 h2 _ _ _

/-! ## Claims C4 to C9 -/

/-- Claim C4 (divergence): the bias-voltage vector of the returned
result is the `sweepPoints`-entry sweep vector with one extra entry
appended per job (the `vin_swp_vec.push(vin)` inside the dispatch
loop): for `n_pu = n_pd = 1` and `sweepPoints = 2`, the returned
vector has `2 + 4 = 6` entries, not `sweepPoints = 2`, though its
first `sweepPoints` entries do follow the formula
`voltage · i / (sweepPoints − 1)`. -/
theorem C4_vin_scratch_overflow :
    (simulate_driver C4f C4p 1 1).map (fun out => out.vin.length) = some 6 ∧
    (simulate_driver C4f C4p 1 1).map (fun out => out.vin.take 2) =
      some (vin_sweep C4p.pvtVoltage C4p.sweep_points) ∧
    vin_sweep C4p.pvtVoltage C4p.sweep_points = [0, 1] ∧
    C4p.sweep_points = 2 ∧ (6 : ℕ) ≠ 2 := by
  have hout : simulate_driver C4f C4p 1 1 =
      some ((driverJobs C4p 1 1).foldl (aggStep C4f)
        { r_pu := List.replicate 1 (List.replicate C4p.sweep_points [])
          r_pd := List.replicate 1 (List.replicate C4p.sweep_points [])
          freq := []
          vin := vin_sweep C4p.pvtVoltage C4p.sweep_points ++
            (driverJobs C4p 1 1).map SimJob.vin
          pu_codes := List.range' 1 1
          pd_codes := List.range' 1 1 }) := by
    unfold simulate_driver
    rw [if_pos (by decide)]
  refine ⟨by decide, ?_, ?_, rfl, by decide⟩
  · rw [hout, Option.map_some', foldl_aggStep_vin]
    have hlen : (vin_sweep C4p.pvtVoltage C4p.sweep_points).length = 2 := by
      decide
    rw [List.take_left' hlen]
  · show vin_sweep 1 2 = [0, 1]
    unfold vin_sweep
    norm_num [List.range_succ]

/-- Claim C5: when a DUT's pull-down port count differs from its
pull-up port count, schematic assembly fails its length assertion even
for masks of the correct per-family lengths (the `pd_ctlb` signal
array is sized by the pull-up port count), and every job enumerated by
`simulate_driver` carries masks of lengths `(n_pu, n_pd)`, so every
job's testbench fails the same assertion: `simulate_driver` can only
complete when `n_pu = n_pd`. -/
theorem C5_pd_sized_by_pu (dut : DutPorts) (tb : DriverAcTbParams)
    (params : DriverSimParams) (hne : dut.n_pu ≠ dut.n_pd)
    (h1 : tb.pu_mask.length = dut.n_pu) (h2 : tb.pd_mask.length = dut.n_pd) :
    DriverAcTb.schematic dut tb = none ∧
    ∀ j ∈ driverJobs params dut.n_pu dut.n_pd,
      DriverAcTb.schematic dut (jobTb params j) = none := by
  constructor
  · exact schematic_none_of_pd_len (by omega)
  · intro j hj
    obtain ⟨_, hpd⟩ := mem_driverJobs_lengths hj
    exact schematic_none_of_pd_len (by simp [jobTb]; omega)

/-- Witness for C5 with a DUT exposing two pull-up ports and one
pull-down port. -/
theorem C5_pd_sized_by_pu_witness :
    DriverAcTb.schematic ⟨2, 1⟩ C5tb = none ∧
    ∀ j ∈ driverJobs C5p 2 1,
      DriverAcTb.schematic ⟨2, 1⟩ (jobTb C5p j) = none :=
  C5_pd_sized_by_pu ⟨2, 1⟩ C5tb C5p (by decide) (by decide) (by decide)

/-- Counterexample to C6 as stated: for a DUT with `n_pu = 2`,
`n_pd = 1` and masks of the claimed correct lengths 2 and 1, assembly
fails, so success is not equivalent to
`pu_mask.len = n_pu ∧ pd_mask.len = n_pd`. -/
theorem C6_claimed_iff_false :
    ¬ (((DriverAcTb.schematic ⟨2, 1⟩ C6tb).isSome = true) ↔
      (C6tb.pu_mask.length = (DutPorts.mk 2 1).n_pu ∧
        C6tb.pd_mask.length = (DutPorts.mk 2 1).n_pd)) := by
  decide

/-- Claim C6 (amended): testbench assembly succeeds iff `pu_mask` has
length `n_pu`, `pd_mask` has length `n_pu` as well (the `pd_ctlb`
signal array is sized by the pull-up port count), and `n_pu ≤ n_pd`
(otherwise the pull-down loop indexes the DUT's pull-down ports out of
bounds); any violation is fatal, not a recoverable result. -/
theorem C6_success_iff (dut : DutPorts) (tb : DriverAcTbParams) :
    (DriverAcTb.schematic dut tb).isSome = true ↔
      (tb.pu_mask.length = dut.n_pu ∧ tb.pd_mask.length = dut.n_pu ∧
        dut.n_pu ≤ dut.n_pd) := by
  unfold DriverAcTb.schematic
  by_cases h1 : dut.n_pu = tb.pu_mask.length ∧ dut.n_pu = tb.pd_mask.length
  · rw [if_pos h1]
    by_cases h2 : dut.n_pu ≤ dut.n_pd
    · rw [if_pos h2]
      simp only [Option.isSome_some, true_iff]
      exact ⟨h1.1.symm, h1.2.symm, h2⟩
    · rw [if_neg h2]
      simp only [Option.isSome_none, Bool.false_eq_true, false_iff]
      intro hc
      exact h2 hc.2.2
  · rw [if_neg h1]
    simp only [Option.isSome_none, Bool.false_eq_true, false_iff]
    intro hc
    exact h1 ⟨hc.1.symm, hc.2.1.symm⟩

/-- Claim C7: for every accepted mask pair, pull-up control line `i`
is tied through a 100 Ω resistor to `vdd` when `pu_mask[i]` and to
ground otherwise; pull-down control line `i` is tied through a 100 Ω
resistor to ground when `pd_mask[i]` and to `vdd` otherwise (inverted
polarity); and a unit-magnitude, zero-phase AC current source is
injected from ground into `dout`. -/
theorem C7_terminations (dut : DutPorts) (tb : DriverAcTbParams)
    (insts : List TbInstance)
    (h : DriverAcTb.schematic dut tb = some insts) :
    (∀ i, i < tb.pu_mask.length →
      insts[i]? = some (TbInstance.resistor 100 (Terminal.pu_ctl i)
        (if tb.pu_mask.getD i false then Terminal.vdd else Terminal.vss))) ∧
    (∀ i, i < tb.pd_mask.length →
      insts[dut.n_pu + i]? =
        some (TbInstance.resistor 100 (Terminal.pd_ctlb i)
          (if tb.pd_mask.getD i false then Terminal.vss else Terminal.vdd))) ∧
    TbInstance.isource_ac ⟨0, 1, 0⟩ Terminal.vss Terminal.vout ∈ insts := by
  unfold DriverAcTb.schematic at h
  by_cases h1 : dut.n_pu = tb.pu_mask.length ∧ dut.n_pu = tb.pd_mask.length
  on_goal 2 => rw [if_neg h1] at h; exact absurd h (by simp)
  rw [if_pos h1] at h
  by_cases h2 : dut.n_pu ≤ dut.n_pd
  on_goal 2 => rw [if_neg h2] at h; exact absurd h (by simp)
  rw [if_pos h2] at h
  injection h with h
  subst h
  obtain ⟨hpu, hpd⟩ := h1
  refine ⟨?_, ?_, ?_⟩
  · intro i hi
    rw [List.getElem?_append, if_pos (by simp; omega)]
    rw [List.getElem?_append, if_pos (by simp; omega)]
    rw [List.getElem?_map, List.getElem?_range (by omega)]
    rfl
  · intro i hi
    rw [List.getElem?_append, if_pos (by simp; omega)]
    rw [List.getElem?_append, if_neg (by simp)]
    rw [List.length_map, List.length_range, Nat.add_sub_cancel_left]
    rw [List.getElem?_map, List.getElem?_range (by omega)]
    rfl
  · simp

/-- Witness for C7 on a DUT with one port per family, pull-up mask
`[true]`, pull-down mask `[false]`. -/
theorem C7_terminations_witness :
    (∀ i, i < C7tb.pu_mask.length →
      C7insts[i]? = some (TbInstance.resistor 100 (Terminal.pu_ctl i)
        (if C7tb.pu_mask.getD i false then Terminal.vdd else Terminal.vss))) ∧
    (∀ i, i < C7tb.pd_mask.length →
      C7insts[(DutPorts.mk 1 1).n_pu + i]? =
        some (TbInstance.resistor 100 (Terminal.pd_ctlb i)
          (if C7tb.pd_mask.getD i false then Terminal.vss else Terminal.vdd))) ∧
    TbInstance.isource_ac ⟨0, 1, 0⟩ Terminal.vss Terminal.vout ∈ C7insts :=
  C7_terminations ⟨1, 1⟩ C7tb C7insts (by rfl)

/-- Claim C8: a completed run's `rPullUp` has exactly `n_pu` rows of
`sweepPoints` entries each, `rPullDown` has exactly `n_pd` rows of
`sweepPoints` entries each, and the dispatcher enumerates exactly
`(n_pu + n_pd) · sweepPoints` jobs. -/
theorem C8_dimensions (simFn : SimJob → List ℚ × List Cx)
    (params : DriverSimParams) (n_pu n_pd : ℕ) (out : DriverAcSims)
    (h : simulate_driver simFn params n_pu n_pd = some out) :
    out.r_pu.length = n_pu ∧
    (∀ k, k < n_pu → (out.r_pu.getD k []).length = params.sweep_points) ∧
    out.r_pd.length = n_pd ∧
    (∀ k, k < n_pd → (out.r_pd.getD k []).length = params.sweep_points) ∧
    (driverJobs params n_pu n_pd).length =
      (n_pu + n_pd) * params.sweep_points := by
  have hjobs : (driverJobs params n_pu n_pd).length =
      (n_pu + n_pd) * params.sweep_points := by
    unfold driverJobs
    rw [List.length_append, length_jobsFor, length_jobsFor, Nat.add_mul]
  unfold simulate_driver at h
  split at h
  · injection h with h
    subst h
    obtain ⟨hpu, hpd⟩ := foldl_aggStep_shapes simFn (driverJobs params n_pu n_pd)
      { r_pu := List.replicate n_pu (List.replicate params.sweep_points [])
        r_pd := List.replicate n_pd (List.replicate params.sweep_points [])
        freq := []
        vin := vin_sweep params.pvtVoltage params.sweep_points ++
          (driverJobs params n_pu n_pd).map SimJob.vin
        pu_codes := List.range' 1 n_pu
        pd_codes := List.range' 1 n_pd }
      (tableShape_replicate n_pu params.sweep_points)
      (tableShape_replicate n_pd params.sweep_points)
    exact ⟨hpu.1, hpu.2, hpd.1, hpd.2, hjobs⟩
  · exact absurd h (by simp)

/-- Witness for C8 at `n_pu = 4`, `n_pd = 3`, `sweepPoints = 5`:
4 rows, 3 rows, and `(4 + 3) · 5 = 35` jobs. -/
theorem C8_dimensions_witness :
    (simulate_driver C8f C8p 4 3).map (fun out => out.r_pu.length) =
      some 4 ∧
    (simulate_driver C8f C8p 4 3).map (fun out => out.r_pd.length) =
      some 3 ∧
    (driverJobs C8p 4 3).length = (4 + 3) * C8p.sweep_points ∧
    (driverJobs C8p 4 3).length = 35 := by
  have hsome : (simulate_driver C8f C8p 4 3).isSome = true := by decide
  have h : simulate_driver C8f C8p 4 3 =
      some ((simulate_driver C8f C8p 4 3).get hsome) :=
    (Option.some_get hsome).symm
  have hd := C8_dimensions C8f C8p 4 3 _ h
  refine ⟨?_, ?_, hd.2.2.2.2, by decide⟩
  · rw [h, Option.map_some', hd.1]
  · rw [h, Option.map_some', hd.2.2.1]

/-- Counterexample to C9 as stated: with an oracle whose frequency
vector is `[1]` for pull-up jobs and `[2]` for pull-down jobs, the
first and last jobs of the run produce different frequency vectors,
yet the aggregator completes normally (no fault is reported) and the
result simply carries the last-joined job's vector `[2]`. -/
theorem C9_divergence_ignored :
    ((driverJobs C9p 1 1).head?.map (fun j => (C9f j).1) = some [1]) ∧
    ((driverJobs C9p 1 1).getLast?.map (fun j => (C9f j).1) = some [2]) ∧
    ([1] : List ℚ) ≠ [2] ∧
    (simulate_driver C9f C9p 1 1).isSome = true ∧
    (simulate_driver C9f C9p 1 1).map DriverAcSims.freq = some [2] :=
  ⟨by rfl, by rfl, by norm_num, by rfl, by rfl⟩

/-- Claim C9 (amended): the aggregator overwrites the shared frequency
vector with each completed job's vector in join order; divergence
across jobs is silently ignored and the returned result carries the
last-joined job's frequency vector. -/
theorem C9_freq_overwritten (simFn : SimJob → List ℚ × List Cx)
    (params : DriverSimParams) (n_pu n_pd : ℕ) (out : DriverAcSims)
    (j : SimJob) (h : simulate_driver simFn params n_pu n_pd = some out)
    (hlast : (driverJobs params n_pu n_pd).getLast? = some j) :
    out.freq = (simFn j).1 := by
  unfold simulate_driver at h
  split at h
  · injection h with h
    subst h
    exact foldl_aggStep_freq simFn _ _ j hlast
  · exact absurd h (by simp)

/-- Witness for C9 (amended) on a run of four jobs whose last job is a
pull-down job with frequency vector `[2]`. -/
theorem C9_freq_overwritten_witness :
    ((simulate_driver C9f C9p 1 1).get (by rfl)).freq =
      (C9f ((driverJobs C9p 1 1).getLast (by decide))).1 :=
  C9_freq_overwritten C9f C9p 1 1 _ _ (Option.some_get _).symm
    (List.getLast?_eq_getLast _ _)

end UcieAnalog
